import Mathlib

/-!
Shallow embedding of the tic-tac-toe game engine in
`src/tic_tac_toe_frontend/src/App.js`.

The React component keeps independent state in the hooks `mode`, `squares`,
`step` and `isXNext`; the hook values `status` and `winLine` are derived from
`squares`/`isXNext` by the winner-detection effect, which runs
`calculateWinner` after every change, so a test of JS `winLine` truthiness is
a test of `calculateWinner squares` being non-null (note a Draw yields
`winLine = []`, which is truthy in JS).  We therefore embed `GameState` as the
four independent fields and treat the outcome as the derived value
`calculateWinner squares`.

JS `null`/`undefined` cells are `Option.none`; reading `squares[i]` past the
end of the array yields `undefined`, i.e. `none`; assigning `nextSquares[i]`
past the end grows the array, with holes that read back as `undefined`.
-/

namespace TicTacToe

/-- The two marks `"X"` and `"O"` (`PLAYER_MARKS`). `X` is markA, `O` markB. -/
inductive Mark where
  | X : Mark
  | O : Mark
deriving DecidableEq, Repr, Fintype

/-- A board cell: `null` (empty) or a mark. -/
abbrev Cell := Option Mark

/-- The two mode keys `"pvp"` (human-vs-human) and `"ai"` (human-vs-computer). -/
inductive Mode where
  | pvp : Mode
  | ai : Mode
deriving DecidableEq, Repr

/-- Result of `calculateWinner`: JS `null` (in progress),
`{winner: mark, winLine: line}` (win), or `{winner: "Draw", winLine: []}`. -/
inductive Outcome where
  | inProgress : Outcome
  | win : Mark → Nat × Nat × Nat → Outcome
  | draw : Outcome
deriving DecidableEq, Repr

/-- The independent React state of `App`: `mode`, `squares`, `step`, `isXNext`
(`status` and `winLine` are derived from these by the detection effect). -/
structure GameState where
  mode : Mode
  squares : List Cell
  step : Nat
  isXNext : Bool
deriving DecidableEq, Repr

/-- The 8 fixed `lines` of `calculateWinner`, in source order. -/
def winLines : List (Nat × Nat × Nat) :=
  [(0,1,2), (3,4,5), (6,7,8), (0,3,6), (1,4,7), (2,5,8), (0,4,8), (2,4,6)]

/-- JS read `squares[i]`: the cell when `i` is in range, `undefined` (= `none`,
falsy) otherwise. -/
def cellAt : List Cell → Nat → Cell
  | [], _ => none
  | c :: _, 0 => c
  | _ :: rest, n + 1 => cellAt rest n

/-- The `for (let line of lines)` loop of `calculateWinner`: the first line
`(a,b,c)` with `squares[a]` truthy and `squares[a] === squares[b]` and
`squares[a] === squares[c]` yields `some (squares[a], line)`. -/
def findWinLine (squares : List Cell) : List (Nat × Nat × Nat) → Option (Mark × (Nat × Nat × Nat))
  | [] => none
  | l :: rest =>
    match cellAt squares l.1 with
    | none => findWinLine squares rest
    | some m =>
      if cellAt squares l.2.1 = some m ∧ cellAt squares l.2.2 = some m then
        some (m, l)
      else
        findWinLine squares rest

/-- `calculateWinner`: first winning line if any; otherwise `Draw` when
`!squares.includes(null)`, else `null` (in progress). -/
def calculateWinner (squares : List Cell) : Outcome :=
  match findWinLine squares winLines with
  | some (m, l) => Outcome.win m l
  | none => if none ∈ squares then Outcome.inProgress else Outcome.draw

/-- The `empties` list of `getRandomEmptyIndex`:
`squares.map((x,i)=> x ? null : i).filter((x)=>x !== null)`, i.e. the indices
`i < squares.length` whose cell is falsy, in increasing order. -/
def emptyIndices (squares : List Cell) : List Nat :=
  (List.range squares.length).filter (fun i => decide (cellAt squares i = none))

/-- `getRandomEmptyIndex`: `null` when `empties` is empty, otherwise
`empties[Math.floor(Math.random() * empties.length)]`.  The random draw is
embedded as the parameter `r`: `Math.floor(Math.random() * len)` is a number
in `[0, len)`, modelled as `r % len`. -/
def getRandomEmptyIndex (squares : List Cell) (r : Nat) : Option Nat :=
  let empties := emptyIndices squares
  if empties.length = 0 then none
  else empties.get? (r % empties.length)

/-- JS write `nextSquares[i] = c`: sets the cell in range, or grows the array
to length `i + 1` with holes (reading back as `none`) past the old end. -/
def setCell : List Cell → Nat → Cell → List Cell
  | [], 0, c => [c]
  | [], n + 1, c => none :: setCell [] n c
  | _ :: rest, 0, c => c :: rest
  | a :: rest, n + 1, c => a :: setCell rest n c

/-- The mark placed by `handleSquare`:
`markOverride || (isXNext ? 'X' : 'O')`. -/
def moveMark (isXNext : Bool) (markOverride : Option Mark) : Mark :=
  markOverride.getD (if isXNext then Mark.X else Mark.O)

/-- `handleSquare(i, markOverride)`: no-op when `winLine || squares[i]` is
truthy (game over or occupied cell) or when
`mode === 'ai' && !isXNext && !markOverride` (human input in the computer's
slot); otherwise writes the mark, bumps `step` and flips `isXNext`. -/
def handleSquare (s : GameState) (i : Nat) (markOverride : Option Mark) : GameState :=
  if calculateWinner s.squares ≠ Outcome.inProgress ∨ cellAt s.squares i ≠ none then s
  else if s.mode = Mode.ai ∧ s.isXNext = false ∧ markOverride = none then s
  else
    { s with
      squares := setCell s.squares i (some (moveMark s.isXNext markOverride)),
      step := s.step + 1,
      isXNext := !s.isXNext }

/-- `handleReset`: 9 empty cells, `step = 0`, `isXNext = true`; `mode` (and
`theme`) untouched. -/
def handleReset (s : GameState) : GameState :=
  { s with squares := List.replicate 9 none, step := 0, isXNext := true }

/-- `handleModeChange(modeKey)`: `setMode(modeKey)` followed by
`handleReset()`. -/
def handleModeChange (s : GameState) (modeKey : Mode) : GameState :=
  handleReset { s with mode := modeKey }

/-- The initial hook values of `App`: mode `"pvp"`, `Array(9).fill(null)`,
`step = 0`, `isXNext = true`. -/
def initialState : GameState :=
  { mode := Mode.pvp, squares := List.replicate 9 none, step := 0, isXNext := true }

/-- Number of cells holding mark `m` (the spec's `count`). -/
def countMark (m : Mark) : List Cell → Nat
  | [] => 0
  | c :: rest => (if c = some m then 1 else 0) + countMark m rest

/-- Line `l` is a win for `m`: all three of its cells read as `m`. -/
def LineWinsBy (squares : List Cell) (l : Nat × Nat × Nat) (m : Mark) : Prop :=
  cellAt squares l.1 = some m ∧ cellAt squares l.2.1 = some m ∧ cellAt squares l.2.2 = some m

instance (squares : List Cell) (l : Nat × Nat × Nat) (m : Mark) :
    Decidable (LineWinsBy squares l m) := by
  unfold LineWinsBy; infer_instance

/-- States reachable by the app's actual transitions: the initial render,
`handleReset`, `handleModeChange`, a board click (`handleSquare(i)` with no
explicit mark), and the AI effect, which fires only when `mode === "ai"`,
`!winLine` and `!isXNext`, and plays `handleSquare(index, "O")` at an index
returned by `getRandomEmptyIndex`. -/
inductive Reachable : GameState → Prop where
  | init : Reachable initialState
  | reset : ∀ s, Reachable s → Reachable (handleReset s)
  | modeChange : ∀ s mk, Reachable s → Reachable (handleModeChange s mk)
  | humanMove : ∀ s i, Reachable s → Reachable (handleSquare s i none)
  | aiMove : ∀ s r i, Reachable s → s.mode = Mode.ai → s.isXNext = false →
      calculateWinner s.squares = Outcome.inProgress →
      getRandomEmptyIndex s.squares r = some i →
      Reachable (handleSquare s i (some Mark.O))

/-! ### Basic lemmas about cell reads and writes -/

lemma cellAt_nil (j : Nat) : cellAt [] j = none := by
  cases j <;> simp [cellAt]

lemma cellAt_setCell_nil (i j : Nat) (c : Cell) :
    cellAt (setCell [] i c) j = if j = i then c else none := by
  induction i generalizing j with
  | zero => cases j <;> simp [setCell, cellAt]
  | succ n ih =>
    cases j with
    | zero => simp [setCell, cellAt]
    | succ j => simpa [setCell, cellAt] using ih j

lemma cellAt_setCell (squares : List Cell) (i j : Nat) (c : Cell) :
    cellAt (setCell squares i c) j = if j = i then c else cellAt squares j := by
  induction squares generalizing i j with
  | nil => simpa [cellAt_nil] using cellAt_setCell_nil i j c
  | cons a rest ih =>
    cases i with
    | zero => cases j <;> simp [setCell, cellAt]
    | succ n =>
      cases j with
      | zero => simp [setCell, cellAt]
      | succ j => simpa [setCell, cellAt] using ih n j

lemma cellAt_of_length_le (squares : List Cell) (i : Nat) (h : squares.length ≤ i) :
    cellAt squares i = none := by
  induction squares generalizing i with
  | nil => exact cellAt_nil i
  | cons a rest ih =>
    cases i with
    | zero => simp at h
    | succ n => exact ih n (by simpa using h)

lemma length_setCell_nil (i : Nat) (c : Cell) : (setCell [] i c).length = i + 1 := by
  induction i with
  | zero => simp [setCell]
  | succ n ih => simp [setCell, ih]

lemma length_setCell_of_length_le (squares : List Cell) (i : Nat) (c : Cell)
    (h : squares.length ≤ i) : (setCell squares i c).length = i + 1 := by
  induction squares generalizing i with
  | nil => exact length_setCell_nil i c
  | cons a rest ih =>
    cases i with
    | zero => simp at h
    | succ n => simp [setCell, ih n (by simpa using h)]

lemma countMark_setCell_nil (i : Nat) (m m' : Mark) :
    countMark m' (setCell [] i (some m)) = if m' = m then 1 else 0 := by
  induction i with
  | zero =>
    by_cases h : m' = m
    · simp [setCell, countMark, h]
    · simp [setCell, countMark, h, Ne.symm h]
  | succ n ih => simpa [setCell, countMark] using ih

lemma countMark_setCell (squares : List Cell) (i : Nat) (m m' : Mark)
    (h : cellAt squares i = none) :
    countMark m' (setCell squares i (some m)) =
      countMark m' squares + if m' = m then 1 else 0 := by
  induction squares generalizing i with
  | nil => simpa [countMark] using countMark_setCell_nil i m m'
  | cons a rest ih =>
    cases i with
    | zero =>
      have ha : a = none := by simpa [cellAt] using h
      subst ha
      by_cases hm : m' = m
      · simp [setCell, countMark, hm, Nat.add_comm]
      · simp [setCell, countMark, hm, Ne.symm hm]
    | succ n =>
      have h' : cellAt rest n = none := by simpa [cellAt] using h
      simp [setCell, countMark, ih n h', Nat.add_assoc]

lemma countMark_replicate_none (n : Nat) (m : Mark) :
    countMark m (List.replicate n none) = 0 := by
  induction n with
  | zero => simp [countMark]
  | succ k ih => simp [List.replicate, countMark, ih]

/-! ### Case analysis of `handleSquare` -/

lemma handleSquare_noop_of_terminal (s : GameState) (i : Nat) (mo : Option Mark)
    (h : calculateWinner s.squares ≠ Outcome.inProgress) : handleSquare s i mo = s := by
  simp [handleSquare, h]

lemma handleSquare_noop_of_occupied (s : GameState) (i : Nat) (mo : Option Mark)
    (h : cellAt s.squares i ≠ none) : handleSquare s i mo = s := by
  simp [handleSquare, h]

lemma handleSquare_noop_of_aiGuard (s : GameState) (i : Nat)
    (h1 : s.mode = Mode.ai) (h2 : s.isXNext = false) : handleSquare s i none = s := by
  unfold handleSquare
  split
  · rfl
  · simp [h1, h2]

lemma handleSquare_accepted (s : GameState) (i : Nat) (mo : Option Mark)
    (h1 : calculateWinner s.squares = Outcome.inProgress)
    (h2 : cellAt s.squares i = none)
    (h3 : ¬(s.mode = Mode.ai ∧ s.isXNext = false ∧ mo = none)) :
    handleSquare s i mo =
      { s with
        squares := setCell s.squares i (some (moveMark s.isXNext mo)),
        step := s.step + 1,
        isXNext := !s.isXNext } := by
  simp [handleSquare, h1, h2, h3]

lemma handleSquare_cases (s : GameState) (i : Nat) (mo : Option Mark) :
    handleSquare s i mo = s ∨
      (calculateWinner s.squares = Outcome.inProgress ∧ cellAt s.squares i = none ∧
        handleSquare s i mo =
          { s with
            squares := setCell s.squares i (some (moveMark s.isXNext mo)),
            step := s.step + 1,
            isXNext := !s.isXNext }) := by
  by_cases h1 : calculateWinner s.squares = Outcome.inProgress
  · by_cases h2 : cellAt s.squares i = none
    · by_cases h3 : s.mode = Mode.ai ∧ s.isXNext = false ∧ mo = none
      · refine Or.inl ?_
        rcases h3 with ⟨ha, hx, hmo⟩
        subst hmo
        exact handleSquare_noop_of_aiGuard s i ha hx
      · exact Or.inr ⟨h1, h2, handleSquare_accepted s i mo h1 h2 h3⟩
    · exact Or.inl (handleSquare_noop_of_occupied s i mo h2)
  · exact Or.inl (handleSquare_noop_of_terminal s i mo h1)

/-! ### First-match characterization of `findWinLine` -/

lemma lineWinsBy_unique (squares : List Cell) (l : Nat × Nat × Nat) (m m' : Mark)
    (h : LineWinsBy squares l m) (h' : LineWinsBy squares l m') : m = m' := by
  have := h.1.symm.trans h'.1
  exact Option.some.inj this

lemma findWinLine_cons_of_win (squares : List Cell) (l : Nat × Nat × Nat) (m : Mark)
    (rest : List (Nat × Nat × Nat)) (h : LineWinsBy squares l m) :
    findWinLine squares (l :: rest) = some (m, l) := by
  obtain ⟨h1, h2, h3⟩ := h
  simp [findWinLine, h1, h2, h3]

lemma findWinLine_cons_of_not_win (squares : List Cell) (l : Nat × Nat × Nat)
    (rest : List (Nat × Nat × Nat)) (h : ∀ m, ¬ LineWinsBy squares l m) :
    findWinLine squares (l :: rest) = findWinLine squares rest := by
  cases h1 : cellAt squares l.1 with
  | none => simp [findWinLine, h1]
  | some m0 =>
    have hc : ¬(cellAt squares l.2.1 = some m0 ∧ cellAt squares l.2.2 = some m0) :=
      fun hand => h m0 ⟨h1, hand.1, hand.2⟩
    simp [findWinLine, h1, hc]

lemma findWinLine_eq_none_iff (squares : List Cell) (ls : List (Nat × Nat × Nat)) :
    findWinLine squares ls = none ↔ ∀ l ∈ ls, ∀ m, ¬ LineWinsBy squares l m := by
  induction ls with
  | nil => simp [findWinLine]
  | cons l rest ih =>
    by_cases hw : ∃ m, LineWinsBy squares l m
    · obtain ⟨m, hm⟩ := hw
      rw [findWinLine_cons_of_win squares l m rest hm]
      constructor
      · intro h; cases h
      · intro h; exact absurd hm (h l (by simp) m)
    · push_neg at hw
      rw [findWinLine_cons_of_not_win squares l rest hw, ih]
      constructor
      · intro h l' hl' m
        rcases List.mem_cons.mp hl' with hl | hl
        · exact hl ▸ hw m
        · exact h l' hl m
      · intro h l' hl' m
        exact h l' (List.mem_cons_of_mem l hl') m

lemma findWinLine_eq_some_iff (squares : List Cell) (ls : List (Nat × Nat × Nat))
    (m : Mark) (t : Nat × Nat × Nat) :
    findWinLine squares ls = some (m, t) ↔
      ∃ pre post, ls = pre ++ t :: post ∧ LineWinsBy squares t m ∧
        ∀ l ∈ pre, ∀ m', ¬ LineWinsBy squares l m' := by
  induction ls with
  | nil =>
    constructor
    · intro h; cases h
    · rintro ⟨pre, post, hls, -, -⟩
      cases pre <;> simp at hls
  | cons l rest ih =>
    by_cases hw : ∃ m0, LineWinsBy squares l m0
    · obtain ⟨m0, hm0⟩ := hw
      rw [findWinLine_cons_of_win squares l m0 rest hm0]
      constructor
      · intro h
        have hmt : m0 = m ∧ l = t := by
          have := Option.some.inj h
          exact ⟨congrArg Prod.fst this, congrArg Prod.snd this⟩
        refine ⟨[], rest, ?_, ?_, ?_⟩
        · simp [hmt.2]
        · exact hmt.2 ▸ hmt.1 ▸ hm0
        · intro l' hl'; cases hl'
      · rintro ⟨pre, post, hls, hwin, hpre⟩
        cases pre with
        | nil =>
          have hlt : l = t ∧ rest = post := by simpa using hls
          have hm : m = m0 :=
            lineWinsBy_unique squares l m m0 (hlt.1 ▸ hwin) hm0
          rw [hm, hlt.1]
        | cons p pre' =>
          have hpl : p = l := by
            have := congrArg (fun xs => List.head? xs) hls
            simpa using this.symm
          exact absurd (hpl ▸ hm0) (hpre p (by simp) m0)
    · push_neg at hw
      rw [findWinLine_cons_of_not_win squares l rest hw, ih]
      constructor
      · rintro ⟨pre, post, hls, hwin, hpre⟩
        refine ⟨l :: pre, post, by rw [List.cons_append, hls], hwin, ?_⟩
        intro l' hl' m'
        rcases List.mem_cons.mp hl' with hl | hl
        · exact hl ▸ hw m'
        · exact hpre l' hl m'
      · rintro ⟨pre, post, hls, hwin, hpre⟩
        cases pre with
        | nil =>
          have hlt : l = t ∧ rest = post := by simpa using hls
          exact absurd (hlt.1 ▸ hwin) (hw m)
        | cons p pre' =>
          have htl : rest = pre' ++ t :: post := by
            have := congrArg List.tail hls
            simpa using this
          refine ⟨pre', post, htl, hwin, ?_⟩
          intro l' hl' m'
          exact hpre l' (List.mem_cons_of_mem p hl') m'

lemma calculateWinner_eq_win_iff (squares : List Cell) (m : Mark) (t : Nat × Nat × Nat) :
    calculateWinner squares = Outcome.win m t ↔ findWinLine squares winLines = some (m, t) := by
  unfold calculateWinner
  cases hf : findWinLine squares winLines with
  | none =>
    constructor
    · intro h
      by_cases hmem : none ∈ squares <;> simp [hmem] at h
    · intro h; cases h
  | some p =>
    obtain ⟨m0, t0⟩ := p
    constructor
    · intro h
      have := Outcome.win.inj (by simpa using h)
      rw [this.1, this.2]
    · intro h
      have h3 : m0 = m ∧ t0 = t := by simpa using Option.some.inj h
      simp [h3.1, h3.2]

/-! ### Alternation invariant on reachable states -/

/-- Strict alternation starting with X: the X count exceeds the O count by
exactly one when it is O's turn, and equals it when it is X's turn. -/
def Balanced (s : GameState) : Prop :=
  countMark Mark.X s.squares = countMark Mark.O s.squares + (if s.isXNext then 0 else 1)

lemma balanced_replicate (s : GameState) (h9 : s.squares = List.replicate 9 none)
    (hx : s.isXNext = true) : Balanced s := by
  unfold Balanced
  rw [h9, hx, countMark_replicate_none, countMark_replicate_none]
  simp

lemma balanced_initialState : Balanced initialState :=
  balanced_replicate initialState rfl rfl

lemma balanced_handleReset (s : GameState) : Balanced (handleReset s) :=
  balanced_replicate (handleReset s) rfl rfl

lemma balanced_handleSquare_none (s : GameState) (i : Nat) (h : Balanced s) :
    Balanced (handleSquare s i none) := by
  rcases handleSquare_cases s i none with heq | ⟨-, hempty, heq⟩
  · rwa [heq]
  · rw [heq]
    unfold Balanced at h ⊢
    cases hx : s.isXNext with
    | true =>
      simp only [hx, if_pos rfl] at h
      simp [moveMark, hx, countMark_setCell s.squares i _ _ hempty, h]
    | false =>
      simp only [hx] at h
      simp [moveMark, hx, countMark_setCell s.squares i _ _ hempty, h]

lemma balanced_handleSquare_someO (s : GameState) (i : Nat)
    (hx : s.isXNext = false) (h : Balanced s) :
    Balanced (handleSquare s i (some Mark.O)) := by
  rcases handleSquare_cases s i (some Mark.O) with heq | ⟨-, hempty, heq⟩
  · rwa [heq]
  · rw [heq]
    unfold Balanced at h ⊢
    simp only [hx] at h
    simp [moveMark, hx, countMark_setCell s.squares i _ _ hempty, h]

lemma balanced_of_reachable (s : GameState) (h : Reachable s) : Balanced s := by
  induction h with
  | init => exact balanced_initialState
  | reset s _ _ => exact balanced_handleReset s
  | modeChange s mk _ _ => exact balanced_handleReset { s with mode := mk }
  | humanMove s i _ ih => exact balanced_handleSquare_none s i ih
  | aiMove s r i _ _ hx _ _ ih => exact balanced_handleSquare_someO s i hx ih

/-! ### Lemmas about `emptyIndices` and `getRandomEmptyIndex` -/

lemma mem_emptyIndices (squares : List Cell) (j : Nat) :
    j ∈ emptyIndices squares ↔ j < squares.length ∧ cellAt squares j = none := by
  simp [emptyIndices, List.mem_filter, List.mem_range]

lemma nodup_emptyIndices (squares : List Cell) : (emptyIndices squares).Nodup :=
  (List.nodup_range _).filter _

lemma getRandomEmptyIndex_eq_none_iff (squares : List Cell) (r : Nat) :
    getRandomEmptyIndex squares r = none ↔ emptyIndices squares = [] := by
  unfold getRandomEmptyIndex
  by_cases h : (emptyIndices squares).length = 0
  · simp [h, List.length_eq_zero.mp h]
  · have hlt : r % (emptyIndices squares).length < (emptyIndices squares).length :=
      Nat.mod_lt r (Nat.pos_of_ne_zero h)
    simp only [h, if_false]
    constructor
    · intro hcontra
      have hle := List.get?_eq_none.mp hcontra
      omega
    · intro hnil
      exact absurd (by simp [hnil]) h

lemma getRandomEmptyIndex_mem (squares : List Cell) (r : Nat) (i : Nat)
    (h : getRandomEmptyIndex squares r = some i) : i ∈ emptyIndices squares := by
  unfold getRandomEmptyIndex at h
  by_cases hz : (emptyIndices squares).length = 0
  · simp [hz] at h
  · simp only [hz, if_false] at h
    exact List.get?_mem h

lemma getRandomEmptyIndex_singleton (squares : List Cell) (r : Nat) (i : Nat)
    (h : emptyIndices squares = [i]) : getRandomEmptyIndex squares r = some i := by
  unfold getRandomEmptyIndex
  simp [h, Nat.mod_one]

lemma emptyIndices_eq_singleton (squares : List Cell) (i : Nat)
    (hi : i ∈ emptyIndices squares)
    (huniq : ∀ j ∈ emptyIndices squares, j = i) :
    emptyIndices squares = [i] := by
  have hnodup := nodup_emptyIndices squares
  cases hE : emptyIndices squares with
  | nil => rw [hE] at hi; cases hi
  | cons a rest =>
    have ha : a = i := huniq a (by rw [hE]; simp)
    cases rest with
    | nil => rw [ha]
    | cons b rest' =>
      have hb : b = i := huniq b (by rw [hE]; simp)
      rw [hE] at hnodup
      have : a ≠ b := by
        have := List.nodup_cons.mp hnodup
        intro hab
        exact this.1 (hab ▸ List.mem_cons_self b rest')
      exact absurd (ha.trans hb.symm) this

/-! ### Mark-swap symmetry of `calculateWinner` -/

/-- Exchange the two marks. -/
def swapMark : Mark → Mark
  | Mark.X => Mark.O
  | Mark.O => Mark.X

/-- Exchange the marks of a cell, leaving empties alone. -/
def swapCell : Cell → Cell :=
  Option.map swapMark

/-- Exchange the marks everywhere on a board. -/
def swapBoard (squares : List Cell) : List Cell :=
  squares.map swapCell

/-- Exchange the marks of an outcome, keeping the winning line. -/
def swapOutcome : Outcome → Outcome
  | Outcome.inProgress => Outcome.inProgress
  | Outcome.draw => Outcome.draw
  | Outcome.win m t => Outcome.win (swapMark m) t

lemma swapMark_swapMark (m : Mark) : swapMark (swapMark m) = m := by
  cases m <;> rfl

lemma cellAt_swapBoard (squares : List Cell) (i : Nat) :
    cellAt (swapBoard squares) i = swapCell (cellAt squares i) := by
  induction squares generalizing i with
  | nil => simp [swapBoard, cellAt_nil, swapCell]
  | cons a rest ih =>
    cases i with
    | zero => simp [swapBoard, cellAt]
    | succ n => simpa [swapBoard, cellAt] using ih n

lemma swapCell_eq_some_iff (c : Cell) (m : Mark) :
    swapCell c = some (swapMark m) ↔ c = some m := by
  cases c with
  | none => simp [swapCell]
  | some m0 => cases m0 <;> cases m <;> decide

lemma findWinLine_swapBoard (squares : List Cell) (ls : List (Nat × Nat × Nat)) :
    findWinLine (swapBoard squares) ls =
      (findWinLine squares ls).map (fun p => (swapMark p.1, p.2)) := by
  induction ls with
  | nil => simp [findWinLine]
  | cons l rest ih =>
    cases h1 : cellAt squares l.1 with
    | none =>
      have h1s : cellAt (swapBoard squares) l.1 = none := by
        simp [cellAt_swapBoard, h1, swapCell]
      simp [findWinLine, h1, h1s, ih]
    | some m =>
      have h1s : cellAt (swapBoard squares) l.1 = some (swapMark m) := by
        simp [cellAt_swapBoard, h1, swapCell]
      by_cases hc : cellAt squares l.2.1 = some m ∧ cellAt squares l.2.2 = some m
      · have hcs : cellAt (swapBoard squares) l.2.1 = some (swapMark m) ∧
            cellAt (swapBoard squares) l.2.2 = some (swapMark m) := by
          rw [cellAt_swapBoard, cellAt_swapBoard, swapCell_eq_some_iff, swapCell_eq_some_iff]
          exact hc
        simp [findWinLine, h1, h1s, hc, hcs]
      · have hcs : ¬(cellAt (swapBoard squares) l.2.1 = some (swapMark m) ∧
            cellAt (swapBoard squares) l.2.2 = some (swapMark m)) := by
          rw [cellAt_swapBoard, cellAt_swapBoard, swapCell_eq_some_iff, swapCell_eq_some_iff]
          exact hc
        simp [findWinLine, h1, h1s, hc, hcs, ih]

lemma none_mem_swapBoard (squares : List Cell) :
    none ∈ swapBoard squares ↔ none ∈ squares := by
  unfold swapBoard
  constructor
  · intro h
    obtain ⟨a, ha, hmap⟩ := List.mem_map.mp h
    cases a with
    | none => exact ha
    | some m0 => simp [swapCell] at hmap
  · intro h
    exact List.mem_map.mpr ⟨none, h, rfl⟩

lemma calculateWinner_swapBoard (squares : List Cell) :
    calculateWinner (swapBoard squares) = swapOutcome (calculateWinner squares) := by
  unfold calculateWinner
  rw [findWinLine_swapBoard]
  cases hf : findWinLine squares winLines with
  | none =>
    simp only [Option.map_none]
    by_cases hmem : none ∈ squares
    · simp [hmem, none_mem_swapBoard, swapOutcome]
    · simp [hmem, none_mem_swapBoard, swapOutcome]
  | some p => simp [swapOutcome]

lemma swapMark_inj (m m' : Mark) : swapMark m = swapMark m' ↔ m = m' := by
  cases m <;> cases m' <;> decide

lemma none_mem_iff_cellAt (squares : List Cell) :
    none ∈ squares ↔ ∃ j, j < squares.length ∧ cellAt squares j = none := by
  induction squares with
  | nil => simp
  | cons a rest ih =>
    constructor
    · intro h
      rcases List.mem_cons.mp h with h | h
      · exact ⟨0, by simp, by simp [cellAt, h.symm]⟩
      · obtain ⟨j, hj, hc⟩ := ih.mp h
        exact ⟨j + 1, by simpa using hj, by simpa [cellAt] using hc⟩
    · rintro ⟨j, hj, hc⟩
      cases j with
      | zero =>
        have : a = none := by simpa [cellAt] using hc
        exact List.mem_cons.mpr (Or.inl this.symm)
      | succ j =>
        exact List.mem_cons_of_mem a
          (ih.mpr ⟨j, by simpa using hj, by simpa [cellAt] using hc⟩)

/-! ### Concrete boards and states used in the spec's scenarios -/

/-- Scenario 2 board: `[A,A,A,_,_,_,_,_,_]`. -/
def boardRowWinX : List Cell :=
  [some Mark.X, some Mark.X, some Mark.X, none, none, none, none, none, none]

/-- Scenario 3 board: `[A,B,A,B,A,B,B,A,B]`, full with no winning triple. -/
def boardFullDraw : List Cell :=
  [some Mark.X, some Mark.O, some Mark.X, some Mark.O, some Mark.X, some Mark.O,
   some Mark.O, some Mark.X, some Mark.O]

/-- A full board that also contains the winning triple `(0,1,2)` for X. -/
def boardFullWin : List Cell :=
  [some Mark.X, some Mark.X, some Mark.X, some Mark.O, some Mark.O, some Mark.X,
   some Mark.O, some Mark.X, some Mark.O]

/-- Scenario 5 board: the only empty cell is index 5. -/
def boardOneEmpty : List Cell :=
  [some Mark.X, some Mark.O, some Mark.X, some Mark.O, some Mark.X, none,
   some Mark.O, some Mark.X, some Mark.O]

/-- The state after switching to human-vs-computer mode and playing X at cell
0: it is the computer's (O's) turn and the game is in progress. -/
def aiTurnState : GameState :=
  handleSquare (handleModeChange initialState Mode.ai) 0 none

/-! ### The claims -/

/-- C1: `calculateWinner` checks the 8 fixed triples in the fixed source
order, and returns a win for mark `m` on triple `t` exactly when `t` is the
first triple in that order whose three cells all hold the same non-empty mark
`m`; in particular the board `[A,A,A,_,_,_,_,_,_]` evaluates to a win for
markA (X) on triple `(0,1,2)`. -/
theorem c1_calculateWinner_first_winning_triple :
    winLines = [(0,1,2), (3,4,5), (6,7,8), (0,3,6), (1,4,7), (2,5,8), (0,4,8), (2,4,6)] ∧
    (∀ (squares : List Cell) (m : Mark) (t : Nat × Nat × Nat),
      calculateWinner squares = Outcome.win m t ↔
        ∃ pre post, winLines = pre ++ t :: post ∧ LineWinsBy squares t m ∧
          ∀ l ∈ pre, ∀ m', ¬ LineWinsBy squares l m') ∧
    calculateWinner boardRowWinX = Outcome.win Mark.X (0, 1, 2) := by
  refine ⟨rfl, ?_, by decide⟩
  intro squares m t
  rw [calculateWinner_eq_win_iff, findWinLine_eq_some_iff]

/-- C2: `handleSquare` is a silent no-op, leaving the whole state unchanged,
whenever the outcome is not in-progress, or the target cell is occupied, or
the mode is human-vs-computer, no explicit mark is supplied and it is the
computer's (O's) turn; in particular a human click during the computer's turn
(Scenario 4) changes nothing. -/
theorem c2_handleSquare_silent_noop :
    (∀ (s : GameState) (i : Nat) (mo : Option Mark),
      (calculateWinner s.squares ≠ Outcome.inProgress ∨ cellAt s.squares i ≠ none ∨
        (s.mode = Mode.ai ∧ s.isXNext = false ∧ mo = none)) →
      handleSquare s i mo = s) ∧
    handleSquare aiTurnState 5 none = aiTurnState := by
  refine ⟨?_, by decide⟩
  intro s i mo h
  rcases h with h | h | ⟨h1, h2, h3⟩
  · exact handleSquare_noop_of_terminal s i mo h
  · exact handleSquare_noop_of_occupied s i mo h
  · subst h3
    exact handleSquare_noop_of_aiGuard s i h1 h2

/-- Witness for C2: the occupied cell 0 of `aiTurnState` makes `handleSquare`
a no-op. -/
theorem c2_handleSquare_silent_noop_witness :
    handleSquare aiTurnState 0 none = aiTurnState :=
  c2_handleSquare_silent_noop.1 aiTurnState 0 none (Or.inr (Or.inl (by decide)))

/-- C3: on every state reachable through the app's operations (initial state,
reset, mode change, human move, computer move), the number of X (markA) cells
minus the number of O (markB) cells is 0 or 1: O's count never exceeds X's,
and X's count exceeds O's by at most one. -/
theorem c3_reachable_alternation (s : GameState) (h : Reachable s) :
    countMark Mark.O s.squares ≤ countMark Mark.X s.squares ∧
    countMark Mark.X s.squares ≤ countMark Mark.O s.squares + 1 := by
  have hb := balanced_of_reachable s h
  unfold Balanced at hb
  by_cases hx : s.isXNext = true
  · rw [hx] at hb
    simp at hb
    omega
  · rw [Bool.not_eq_true] at hx
    rw [hx] at hb
    simp at hb
    omega

/-- Witness for C3: the invariant at the initial state. -/
theorem c3_reachable_alternation_witness :
    countMark Mark.O initialState.squares ≤ countMark Mark.X initialState.squares ∧
    countMark Mark.X initialState.squares ≤ countMark Mark.O initialState.squares + 1 :=
  c3_reachable_alternation initialState Reachable.init

/-- C4: when none of the rejection conditions holds and the index is in
`[0,8]`, `handleSquare` writes the moved mark into the chosen cell, leaves
every other cell unchanged, flips `isXNext`, keeps the mode, bumps `step`,
and the outcome of the new state is `calculateWinner` of the new cells; in
particular on the empty board `handleSquare 4` gives cell 4 = X,
`isXNext = false` and an in-progress outcome (Scenario 1). -/
theorem c4_handleSquare_accepts :
    (∀ (s : GameState) (i : Nat) (mo : Option Mark),
      calculateWinner s.squares = Outcome.inProgress →
      cellAt s.squares i = none →
      ¬(s.mode = Mode.ai ∧ s.isXNext = false ∧ mo = none) →
      i < 9 →
      cellAt (handleSquare s i mo).squares i = some (moveMark s.isXNext mo) ∧
      (∀ j, j ≠ i → cellAt (handleSquare s i mo).squares j = cellAt s.squares j) ∧
      (handleSquare s i mo).isXNext = !s.isXNext ∧
      (handleSquare s i mo).mode = s.mode ∧
      (handleSquare s i mo).step = s.step + 1 ∧
      calculateWinner (handleSquare s i mo).squares =
        calculateWinner (setCell s.squares i (some (moveMark s.isXNext mo)))) ∧
    cellAt (handleSquare initialState 4 none).squares 4 = some Mark.X ∧
    (handleSquare initialState 4 none).isXNext = false ∧
    calculateWinner (handleSquare initialState 4 none).squares = Outcome.inProgress := by
  refine ⟨?_, by decide, by decide, by decide⟩
  intro s i mo h1 h2 h3 _
  rw [handleSquare_accepted s i mo h1 h2 h3]
  refine ⟨?_, ?_, rfl, rfl, rfl, rfl⟩
  · simp [cellAt_setCell]
  · intro j hj
    simp [cellAt_setCell, hj]

/-- Witness for C4: the accepted move of Scenario 1, with cell 0 untouched. -/
theorem c4_handleSquare_accepts_witness :
    cellAt (handleSquare initialState 4 none).squares 4 = some Mark.X ∧
    cellAt (handleSquare initialState 4 none).squares 0 = cellAt initialState.squares 0 ∧
    (handleSquare initialState 4 none).isXNext = false := by
  have h := c4_handleSquare_accepts.1 initialState 4 none (by decide) (by decide)
    (by decide) (by decide)
  exact ⟨h.1, h.2.1 0 (by decide), h.2.2.1.trans (by decide)⟩

/-- C5: on a fully-filled 9-cell board, if some triple wins then
`calculateWinner` reports a win (never a draw, the win check comes first),
and if no triple wins it reports a draw; in particular the full board
`[A,B,A,B,A,B,B,A,B]` evaluates to a draw (Scenario 3). -/
theorem c5_full_board_win_before_draw :
    (∀ squares : List Cell, squares.length = 9 → ¬ none ∈ squares →
      ((∃ l ∈ winLines, ∃ m, LineWinsBy squares l m) →
        ∃ m t, calculateWinner squares = Outcome.win m t) ∧
      ((∀ l ∈ winLines, ∀ m, ¬ LineWinsBy squares l m) →
        calculateWinner squares = Outcome.draw)) ∧
    calculateWinner boardFullDraw = Outcome.draw := by
  refine ⟨?_, by decide⟩
  intro squares _ hfull
  constructor
  · rintro ⟨l, hl, m, hm⟩
    cases hf : findWinLine squares winLines with
    | none => exact absurd hm ((findWinLine_eq_none_iff squares winLines).mp hf l hl m)
    | some p =>
      exact ⟨p.1, p.2, (calculateWinner_eq_win_iff squares p.1 p.2).mpr (by rw [hf])⟩
  · intro hnone
    have hf : findWinLine squares winLines = none :=
      (findWinLine_eq_none_iff squares winLines).mpr hnone
    unfold calculateWinner
    rw [hf]
    simp [hfull]

/-- Witness for C5: a full board with the winning triple `(0,1,2)` reports a
win. -/
theorem c5_full_board_win_before_draw_witness :
    ∃ m t, calculateWinner boardFullWin = Outcome.win m t :=
  (c5_full_board_win_before_draw.1 boardFullWin (by decide) (by decide)).1
    ⟨(0, 1, 2), by decide, Mark.X, by decide⟩

/-- C6: on a 9-cell board, `getRandomEmptyIndex` returns `none` exactly when
no cell is empty; any returned index is in `[0,8]` and its cell is empty; and
when exactly one cell is empty it returns that cell's index for every random
draw. -/
theorem c6_getRandomEmptyIndex_spec (squares : List Cell) (r : Nat)
    (h9 : squares.length = 9) :
    (getRandomEmptyIndex squares r = none ↔ ¬ none ∈ squares) ∧
    (∀ i, getRandomEmptyIndex squares r = some i → i ≤ 8 ∧ cellAt squares i = none) ∧
    (∀ i, i < 9 → cellAt squares i = none →
      (∀ j, j < 9 → cellAt squares j = none → j = i) →
      getRandomEmptyIndex squares r = some i) := by
  refine ⟨?_, ?_, ?_⟩
  · rw [getRandomEmptyIndex_eq_none_iff]
    constructor
    · intro hnil hmem
      obtain ⟨j, hj, hc⟩ := (none_mem_iff_cellAt squares).mp hmem
      have hmem' : j ∈ emptyIndices squares := (mem_emptyIndices squares j).mpr ⟨hj, hc⟩
      rw [hnil] at hmem'
      cases hmem'
    · intro hnot
      refine List.eq_nil_iff_forall_not_mem.mpr fun j hjmem => ?_
      obtain ⟨hj, hc⟩ := (mem_emptyIndices squares j).mp hjmem
      exact hnot ((none_mem_iff_cellAt squares).mpr ⟨j, hj, hc⟩)
  · intro i h
    obtain ⟨hlt, hc⟩ := (mem_emptyIndices squares i).mp (getRandomEmptyIndex_mem squares r i h)
    rw [h9] at hlt
    exact ⟨by omega, hc⟩
  · intro i hi hc huniq
    refine getRandomEmptyIndex_singleton squares r i
      (emptyIndices_eq_singleton squares i ?_ ?_)
    · exact (mem_emptyIndices squares i).mpr ⟨by omega, hc⟩
    · intro j hjmem
      obtain ⟨hjl, hjc⟩ := (mem_emptyIndices squares j).mp hjmem
      exact huniq j (by omega) hjc

/-- Witness for C6: the board whose only empty cell is index 5 yields 5. -/
theorem c6_getRandomEmptyIndex_spec_witness :
    getRandomEmptyIndex boardOneEmpty 7 = some 5 :=
  (c6_getRandomEmptyIndex_spec boardOneEmpty 7 (by decide)).2.2 5 (by decide) (by decide)
    (by decide)

/-- C7: `handleReset` yields 9 empty cells, `isXNext = true` and `step = 0`
while preserving the mode, and `handleModeChange` equals reset with the new
mode: no cells, turn or outcome survive a mode switch (the outcome of the
reset board is in-progress). -/
theorem c7_reset_and_modeChange (s : GameState) (mk : Mode) :
    (handleReset s).squares = List.replicate 9 none ∧
    (handleReset s).isXNext = true ∧
    (handleReset s).step = 0 ∧
    (handleReset s).mode = s.mode ∧
    handleModeChange s mk = handleReset { s with mode := mk } ∧
    (handleModeChange s mk).mode = mk ∧
    (handleModeChange s mk).squares = List.replicate 9 none ∧
    (handleModeChange s mk).isXNext = true ∧
    calculateWinner (handleModeChange s mk).squares = Outcome.inProgress :=
  ⟨rfl, rfl, rfl, rfl, rfl, rfl, rfl, rfl,
    (by decide : calculateWinner (List.replicate 9 none) = Outcome.inProgress)⟩

/-- C8: `calculateWinner` is symmetric under swapping the two marks: the
swapped board's outcome is the original outcome with the winner's identity
swapped and the winning triple unchanged, and in-progress/draw are
preserved. -/
theorem c8_calculateWinner_swap_symmetric (squares : List Cell) :
    calculateWinner (swapBoard squares) = swapOutcome (calculateWinner squares) ∧
    (calculateWinner squares = Outcome.inProgress ↔
      calculateWinner (swapBoard squares) = Outcome.inProgress) ∧
    (calculateWinner squares = Outcome.draw ↔
      calculateWinner (swapBoard squares) = Outcome.draw) ∧
    (∀ (m : Mark) (t : Nat × Nat × Nat),
      calculateWinner squares = Outcome.win m t ↔
        calculateWinner (swapBoard squares) = Outcome.win (swapMark m) t) := by
  have hmain := calculateWinner_swapBoard squares
  refine ⟨hmain, ?_, ?_, ?_⟩
  · rw [hmain]
    cases calculateWinner squares <;> simp [swapOutcome]
  · rw [hmain]
    cases calculateWinner squares <;> simp [swapOutcome]
  · intro m t
    rw [hmain]
    cases calculateWinner squares with
    | inProgress => simp [swapOutcome]
    | draw => simp [swapOutcome]
    | win m0 t0 => simp [swapOutcome, swapMark_inj]

/-- C9: `handleSquare` never validates an explicit mark against the turn or
the mode: on any in-progress state with an empty target cell, a call with an
explicit mark is accepted and writes exactly that mark, flipping `isXNext`;
in particular one call with explicit O on the fresh (human-vs-human) board
produces O count 1 and X count 0, so the alternation invariant is not
enforced by the operation itself. -/
theorem c9_explicit_mark_not_validated :
    (∀ (s : GameState) (i : Nat) (m : Mark),
      calculateWinner s.squares = Outcome.inProgress →
      cellAt s.squares i = none →
      handleSquare s i (some m) =
        { s with
          squares := setCell s.squares i (some m),
          step := s.step + 1,
          isXNext := !s.isXNext }) ∧
    countMark Mark.O (handleSquare initialState 0 (some Mark.O)).squares = 1 ∧
    countMark Mark.X (handleSquare initialState 0 (some Mark.O)).squares = 0 := by
  refine ⟨?_, by decide, by decide⟩
  intro s i m h1 h2
  have h3 : ¬(s.mode = Mode.ai ∧ s.isXNext = false ∧ (some m : Option Mark) = none) := by
    rintro ⟨-, -, h⟩
    cases h
  have hacc := handleSquare_accepted s i (some m) h1 h2 h3
  simpa [moveMark] using hacc

/-- Witness for C9: explicit O accepted on the fresh board, out of turn. -/
theorem c9_explicit_mark_not_validated_witness :
    handleSquare initialState 0 (some Mark.O) =
      { initialState with
        squares := setCell initialState.squares 0 (some Mark.O),
        step := 1,
        isXNext := false } :=
  c9_explicit_mark_not_validated.1 initialState 0 Mark.O (by decide) (by decide)

/-- C10 counterexample: in-progress state `aiTurnState` (mode
human-vs-computer, computer's turn) with the out-of-range index 9 and no
explicit mark is a silent no-op: nothing is written, the board stays at 9
cells and `isXNext` does not flip, contradicting the claim that every
out-of-range move on an in-progress state is accepted. -/
theorem c10_out_of_range_counterexample :
    calculateWinner aiTurnState.squares = Outcome.inProgress ∧
    aiTurnState.squares.length = 9 ∧
    handleSquare aiTurnState 9 none = aiTurnState ∧
    (handleSquare aiTurnState 9 none).squares.length = 9 ∧
    (handleSquare aiTurnState 9 none).isXNext = aiTurnState.isXNext := by
  decide

/-- C10 (amended): for every in-progress 9-cell state and index `i ≥ 9`,
unless the call is rejected by the unrelated computer-turn guard (mode
human-vs-computer, computer's turn, no explicit mark), `handleSquare` does
not reject: position `i` reads as empty, the mark is written at position `i`
(the cells list grows to `i + 1` entries) and `isXNext` flips. -/
theorem c10_out_of_range_write (s : GameState) (i : Nat) (mo : Option Mark)
    (h9 : s.squares.length = 9)
    (h1 : calculateWinner s.squares = Outcome.inProgress)
    (hge : 9 ≤ i)
    (h3 : ¬(s.mode = Mode.ai ∧ s.isXNext = false ∧ mo = none)) :
    cellAt s.squares i = none ∧
    (handleSquare s i mo).squares.length = i + 1 ∧
    cellAt (handleSquare s i mo).squares i = some (moveMark s.isXNext mo) ∧
    (handleSquare s i mo).isXNext = !s.isXNext := by
  have h2 : cellAt s.squares i = none := cellAt_of_length_le s.squares i (by omega)
  rw [handleSquare_accepted s i mo h1 h2 h3]
  refine ⟨h2, ?_, ?_, rfl⟩
  · exact length_setCell_of_length_le s.squares i _ (by omega)
  · simp [cellAt_setCell]

/-- Witness for C10: on the fresh human-vs-human board, a move at index 12
grows the board to 13 cells, writes X there and flips the turn. -/
theorem c10_out_of_range_write_witness :
    (handleSquare initialState 12 none).squares.length = 13 ∧
    cellAt (handleSquare initialState 12 none).squares 12 = some Mark.X ∧
    (handleSquare initialState 12 none).isXNext = false := by
  have h := c10_out_of_range_write initialState 12 none (by decide) (by decide)
    (by decide) (by decide)
  exact ⟨h.2.1, h.2.2.1, h.2.2.2.trans (by decide)⟩

end TicTacToe
